import Mathlib

/-!
Shallow embedding of the MiniPTI signal-processing core and proofs about it.

The embedding covers, faithfully to the C++ sources:
* `decimation::commonNoiseRejection` (src/src/decimation/CommonNoiseRecjection.cpp),
* `decimation::generateReferences` (src/src/decimation/lockInAmplifier.cpp),
* `OutputPhase` phase-scan calibration (src/src/Cpp/phase_scan/OutputPhase.cpp),
* `phaseScan::SystemPhases` (src/src_cpp/systemPhases.cpp),
* `pti_inversion::Inversion` (src/src/Cpp/inversion/Inversion.cpp).

Machine doubles are modelled by exact arithmetic (`ℚ` where the code only
compares and accumulates rationally-valued quantities, `ℝ` where transcendental
functions appear).  Where IEEE-754 special values decide a claim, the kind of
the result (finite / infinite / NaN) is modelled explicitly.  Fallible code and
out-of-bounds accesses are modelled with `Option`.
-/

namespace MiniPTI

/-! ### Helpers -/

/-- Evaluation of `getD` of a `map` over `List.range`. -/
theorem getD_map_range {α : Type} [Inhabited α] {f : ℕ → α} {n s : ℕ} (h : s < n) (d : α) :
    ((List.range n).map f).getD s d = f s := by
  simp [List.getD_eq_getElem?_getD, List.getElem?_map, List.getElem?_range h]

/-! ### Common-noise rejection

Source: `decimation::commonNoiseRejection` in
src/src/decimation/CommonNoiseRecjection.cpp, lines 16-25.  Per sample `s` the
noise `ac1[s]+ac2[s]+ac3[s]` is computed from the pre-update values (the source
reads all three summands before the first write of the iteration), and each AC
channel is decreased by its DC-proportional share of that noise. -/

structure DcSignal where
  dc1 : ℝ
  dc2 : ℝ
  dc3 : ℝ

noncomputable def commonNoiseRejection (dc : DcSignal) (ac1 ac2 ac3 : List ℝ) :
    List ℝ × List ℝ × List ℝ :=
  ((List.range ac1.length).map fun s =>
      ac1.getD s 0 - dc.dc1 / (dc.dc1 + dc.dc2 + dc.dc3) *
        (ac1.getD s 0 + ac2.getD s 0 + ac3.getD s 0),
   (List.range ac2.length).map fun s =>
      ac2.getD s 0 - dc.dc2 / (dc.dc1 + dc.dc2 + dc.dc3) *
        (ac1.getD s 0 + ac2.getD s 0 + ac3.getD s 0),
   (List.range ac3.length).map fun s =>
      ac3.getD s 0 - dc.dc3 / (dc.dc1 + dc.dc2 + dc.dc3) *
        (ac1.getD s 0 + ac2.getD s 0 + ac3.getD s 0))

/-- C7: Common-noise-rejection conservation.  For every raw block and every DC
triple with nonzero total DC, after the update the three AC channels sum to
zero at every sample index (in exact arithmetic). -/
theorem c7_cnr_conservation (dc : DcSignal) (ac1 ac2 ac3 : List ℝ) (s : ℕ)
    (htot : dc.dc1 + dc.dc2 + dc.dc3 ≠ 0)
    (h1 : s < ac1.length) (h2 : s < ac2.length) (h3 : s < ac3.length) :
    (commonNoiseRejection dc ac1 ac2 ac3).1.getD s 0 +
      (commonNoiseRejection dc ac1 ac2 ac3).2.1.getD s 0 +
      (commonNoiseRejection dc ac1 ac2 ac3).2.2.getD s 0 = 0 := by
  unfold commonNoiseRejection
  rw [getD_map_range h1, getD_map_range h2, getD_map_range h3]
  field_simp
  ring

/-- Witness for C7 at a concrete block. -/
theorem c7_cnr_conservation_witness :
    ((1:ℝ) + 1 + 1 ≠ 0) ∧
      (commonNoiseRejection ⟨1,1,1⟩ [1] [2] [3]).1.getD 0 0 +
        (commonNoiseRejection ⟨1,1,1⟩ [1] [2] [3]).2.1.getD 0 0 +
        (commonNoiseRejection ⟨1,1,1⟩ [1] [2] [3]).2.2.getD 0 0 = 0 := by
  refine ⟨by norm_num, ?_⟩
  exact c7_cnr_conservation ⟨1,1,1⟩ [1] [2] [3] 0 (by norm_num)
    (by norm_num) (by norm_num) (by norm_num)

/-! ### Reference generation

Source: `decimation::generateReferences` in
src/src/decimation/lockInAmplifier.cpp, lines 6-41.  The reference samples are
machine doubles compared against 1/10 and 9/10 and the period accumulator only
ever adds even integers, so the scan is modelled exactly over `ℚ`.  The C++
loop runs over `sample = 0 .. samples-2` where `samples` is the fixed array
length; here the array is a list `r` and the loop bound is `r.length - 1`. -/

/-- The first branch of the scan: `ref[s+1] < 1/10 && ref[s] > 9/10`, i.e. a
falling edge at `s` (condition order as in the source). -/
def fallB (r : List ℚ) (s : ℕ) : Bool :=
  decide (r.getD (s+1) 0 < 1/10 ∧ r.getD s 0 > 9/10)

/-- The second branch of the scan: `ref[s] < 1/10 && ref[s+1] > 9/10`, i.e. a
rising edge at `s`. -/
def riseB (r : List ℚ) (s : ℕ) : Bool :=
  decide (r.getD s 0 < 1/10 ∧ r.getD (s+1) 0 > 9/10)

/-- The mutable state of the scan loop: `period`, `signals`, `last_time`,
`phase_shift`, `first_run`, initialised to `0, 0, 0, 0, true`. -/
structure RefScanState where
  period : ℚ
  signals : ℕ
  lastTime : ℕ
  phaseShift : ℕ
  firstRun : Bool

def initRefState : RefScanState := ⟨0, 0, 0, 0, true⟩

/-- One iteration of the scan loop at sample `s`: on a falling edge record
`last_time = s` and, on the first run, `phase_shift = s`; otherwise, on a
rising edge with `s > phase_shift`, accumulate `2 * (s - last_time)` into the
period and count the signal. -/
def refStep (r : List ℚ) (st : RefScanState) (s : ℕ) : RefScanState :=
  if fallB r s then
    { st with lastTime := s,
              phaseShift := if st.firstRun then s else st.phaseShift,
              firstRun := false }
  else if riseB r s && decide (st.phaseShift < s) then
    { st with period := st.period + 2 * ((s : ℚ) - (st.lastTime : ℚ)),
              signals := st.signals + 1 }
  else st

/-- The scan loop over the first `n` samples. -/
def refScanN (r : List ℚ) (n : ℕ) : RefScanState :=
  (List.range n).foldl (refStep r) initRefState

/-- The full scan, `sample = 0 .. samples - 2`. -/
def refScan (r : List ℚ) : RefScanState := refScanN r (r.length - 1)

/-- The tail of `generateReferences`: `exit(1)` on `signals == 0` is modelled
as `none`; otherwise the pair `(phase_shift, period / signals)` that the sine
and cosine reference arrays are built from. -/
def generateReferences (r : List ℚ) : Option (ℕ × ℚ) :=
  if (refScan r).signals = 0 then none
  else some ((refScan r).phaseShift, (refScan r).period / ((refScan r).signals : ℚ))

/-- The reference arrays emitted on success:
`inPhase[s] = sin(2π/period * (s - phase_shift))`. -/
noncomputable def inPhase (phaseShift : ℕ) (period : ℚ) (s : ℕ) : ℝ :=
  Real.sin (2 * Real.pi / (period : ℝ) * ((s : ℝ) - (phaseShift : ℝ)))

/-- The quadrature array, `quadratur[s] = cos(2π/period * (s - phase_shift))`. -/
noncomputable def quadratur (phaseShift : ℕ) (period : ℚ) (s : ℕ) : ℝ :=
  Real.cos (2 * Real.pi / (period : ℝ) * ((s : ℝ) - (phaseShift : ℝ)))

/-! Closed-form characterisations of the scan, stated independently of the
fold and proved equal to it below. -/

/-- Index of the first falling edge of the scanned range (0 when there is
none, matching the initial value of `phase_shift`). -/
def firstFallIdx (r : List ℚ) : ℕ :=
  ((List.range (r.length - 1)).find? (fallB r)).getD 0

/-- Index of the first rising edge of the scanned range, when one exists. -/
def firstRiseIdx (r : List ℚ) : Option ℕ :=
  (List.range (r.length - 1)).find? (riseB r)

/-- The most recent falling edge strictly before sample `s` (0 when there is
none, matching the initial value of `last_time`). -/
def lastFallBefore (r : List ℚ) (s : ℕ) : ℕ :=
  ((List.range s).filter (fallB r)).getLastD 0

/-- A rising edge at `s` contributes to the period accumulator exactly when
`s ≥ 1` (see `refScanN_spec`: at the time `s` is scanned, `phase_shift` is
either 0, before any falling edge, or the index of an earlier falling edge, so
the source guard `s > phase_shift` reduces to `s ≥ 1`). -/
def contributing (r : List ℚ) (s : ℕ) : Bool := riseB r s && decide (1 ≤ s)

/-- Number of period-contributing rising edges of the scanned range. -/
def contributingCount (r : List ℚ) : ℕ :=
  ((List.range (r.length - 1)).filter (contributing r)).length

/-- The period accumulator: every contributing rising edge at `s` adds
`2 * (s - lastFall)` with `lastFall` the most recent falling edge before it. -/
def periodAccum (r : List ℚ) : ℚ :=
  (((List.range (r.length - 1)).filter (contributing r)).map
    (fun s : ℕ => 2 * ((s : ℚ) - (lastFallBefore r s : ℚ)))).sum

/-- A sample cannot be both a falling and a rising edge. -/
theorem fallB_riseB_exclusive (r : List ℚ) (s : ℕ) (h : fallB r s = true) :
    riseB r s = false := by
  simp only [fallB, decide_eq_true_eq] at h
  simp only [riseB, decide_eq_false_iff_not]
  rintro ⟨h1, -⟩
  linarith [h.2, h1]

/-- Loop invariant of the edge scan, proved for every prefix length `n`:
the counter equals the number of contributing rising edges, the accumulator
equals the closed-form period sum, `last_time` is the most recent falling edge,
`phase_shift` is the first falling edge, `first_run` tracks whether a falling
edge has been seen, and after the first falling edge `phase_shift < n`. -/
theorem refScanN_spec (r : List ℚ) (n : ℕ) :
    (refScanN r n).signals = ((List.range n).filter (contributing r)).length ∧
    (refScanN r n).period = (((List.range n).filter (contributing r)).map
      (fun s : ℕ => 2 * ((s : ℚ) - (lastFallBefore r s : ℚ)))).sum ∧
    (refScanN r n).lastTime = lastFallBefore r n ∧
    (refScanN r n).phaseShift = ((List.range n).find? (fallB r)).getD 0 ∧
    ((refScanN r n).firstRun = true ↔ (List.range n).find? (fallB r) = none) ∧
    ((refScanN r n).firstRun = false → (refScanN r n).phaseShift < n) := by
  induction n with
  | zero =>
      simp [refScanN, initRefState, lastFallBefore]
  | succ n ih =>
      obtain ⟨ihSig, ihPer, ihLast, ihShift, ihRun, ihLt⟩ := ih
      have hstep : refScanN r (n+1) = refStep r (refScanN r n) n := by
        unfold refScanN
        rw [List.range_succ, List.foldl_append]
        rfl
      have hLFB : lastFallBefore r (n+1) =
          if fallB r n then n else lastFallBefore r n := by
        unfold lastFallBefore
        rw [List.range_succ, List.filter_append]
        cases hfb : fallB r n <;>
          simp [List.filter, hfb, List.getLastD_concat]
      have hFind : (List.range (n+1)).find? (fallB r) =
          ((List.range n).find? (fallB r)).or
            (if fallB r n then some n else none) := by
        rw [List.range_succ, List.find?_append]
        cases hfb : fallB r n <;> simp [List.find?, hfb]
      have hFilter : (List.range (n+1)).filter (contributing r) =
          (List.range n).filter (contributing r) ++
            (if contributing r n then [n] else []) := by
        rw [List.range_succ, List.filter_append]
        cases hc : contributing r n <;> simp [List.filter, hc]
      by_cases hfall : fallB r n = true
      · -- falling edge at n
        have hc : contributing r n = false := by
          simp [contributing, fallB_riseB_exclusive r n hfall]
        have hstA : refScanN r (n+1) = RefScanState.mk (refScanN r n).period
            (refScanN r n).signals n
            (if (refScanN r n).firstRun then n else (refScanN r n).phaseShift)
            false := by
          rw [hstep]
          unfold refStep
          rw [if_pos hfall]
        rw [hstA]
        refine ⟨?_, ?_, ?_, ?_, ?_, ?_⟩
        · simpa [hFilter, hc] using ihSig
        · simpa [hFilter, hc] using ihPer
        · simp [hLFB, hfall]
        · rw [hFind, if_pos hfall]
          cases hrun : (refScanN r n).firstRun with
          | true =>
              rw [ihRun.1 hrun]
              simp [hrun]
          | false =>
              rcases hopt : (List.range n).find? (fallB r) with _ | v
              · exact absurd (ihRun.2 hopt) (by simp [hrun])
              · simp [hrun, hopt, Option.or, ihShift]
        · simp only [Bool.false_eq_true, false_iff]
          rw [hFind, if_pos hfall]
          rcases hopt : (List.range n).find? (fallB r) with _ | v <;>
            simp [Option.or]
        · intro _
          cases hrun : (refScanN r n).firstRun with
          | true => simp [hrun]
          | false =>
              have := ihLt hrun
              simp only [hrun, Bool.false_eq_true, if_false]
              omega
      · -- no falling edge at n
        have hfall' : fallB r n = false := by
          simpa using hfall
        by_cases hrise : (riseB r n && decide ((refScanN r n).phaseShift < n)) = true
        · -- contributing rising edge
          obtain ⟨hr, hlt'⟩ := Bool.and_eq_true_iff.mp hrise
          have hlt : (refScanN r n).phaseShift < n := of_decide_eq_true hlt'
          have hc : contributing r n = true := by
            simp only [contributing, hr, Bool.true_and, decide_eq_true_eq]
            omega
          have hstB : refScanN r (n+1) = RefScanState.mk
              ((refScanN r n).period + 2 * ((n : ℚ) - ((refScanN r n).lastTime : ℚ)))
              ((refScanN r n).signals + 1) (refScanN r n).lastTime
              (refScanN r n).phaseShift (refScanN r n).firstRun := by
            rw [hstep]
            unfold refStep
            rw [if_neg (by simp [hfall']), if_pos hrise]
          rw [hstB]
          refine ⟨?_, ?_, ?_, ?_, ?_, ?_⟩
          · simp [hFilter, hc, ihSig]
          · simp only [hFilter, hc, if_true, List.map_append, List.sum_append,
              List.map_cons, List.map_nil, List.sum_cons, List.sum_nil]
            show (refScanN r n).period + 2 * ((n : ℚ) - ((refScanN r n).lastTime : ℚ)) = _
            rw [ihPer, ihLast]
            ring
          · show (refScanN r n).lastTime = _
            simp [hLFB, hfall', ihLast]
          · rw [hFind, if_neg (by simp [hfall'])]
            simpa using ihShift
          · rw [hFind, if_neg (by simp [hfall'])]
            simpa using ihRun
          · intro hrf
            have := ihLt hrf
            show (refScanN r n).phaseShift < n + 1
            omega
        · -- no state change
          have hc : contributing r n = false := by
            cases hr : riseB r n with
            | false => simp [contributing, hr]
            | true =>
                have hge : ¬ (refScanN r n).phaseShift < n := by
                  intro hlt
                  exact hrise (by simp [hr, hlt])
                cases hrun : (refScanN r n).firstRun with
                | true =>
                    have h0 : (refScanN r n).phaseShift = 0 := by
                      rw [ihShift, ihRun.1 hrun]
                      rfl
                    have hn0 : n = 0 := by omega
                    simp [contributing, hn0]
                | false => exact absurd (ihLt hrun) hge
          have hstC : refScanN r (n+1) = refScanN r n := by
            rw [hstep]
            unfold refStep
            rw [if_neg (by simp [hfall']), if_neg hrise]
          rw [hstC]
          refine ⟨?_, ?_, ?_, ?_, ?_, ?_⟩
          · simpa [hFilter, hc] using ihSig
          · simpa [hFilter, hc] using ihPer
          · simp [hLFB, hfall', ihLast]
          · rw [hFind, if_neg (by simp [hfall'])]
            simpa using ihShift
          · rw [hFind, if_neg (by simp [hfall'])]
            simpa using ihRun
          · intro hrf
            have := ihLt hrf
            omega

theorem refScan_signals (r : List ℚ) : (refScan r).signals = contributingCount r :=
  (refScanN_spec r (r.length - 1)).1

theorem refScan_period (r : List ℚ) : (refScan r).period = periodAccum r :=
  (refScanN_spec r (r.length - 1)).2.1

theorem refScan_phaseShift (r : List ℚ) : (refScan r).phaseShift = firstFallIdx r :=
  (refScanN_spec r (r.length - 1)).2.2.2.1

/-- C6: NoModulation raises-iff.  Reference generation fails (modelled `none`,
the source prints and calls `exit(1)`) exactly when the count of
period-contributing rising edges is zero; otherwise it succeeds with the mean
period `accumulator / count`, where each contributing rising edge at `s` adds
`2 * (s - lastFall)` to the accumulator. -/
theorem c6_noModulation_iff (r : List ℚ) :
    (generateReferences r = none ↔ contributingCount r = 0) ∧
    (contributingCount r ≠ 0 →
      generateReferences r =
        some (firstFallIdx r, periodAccum r / (contributingCount r : ℚ))) := by
  have hs := refScan_signals r
  have hp := refScan_period r
  have hf := refScan_phaseShift r
  unfold generateReferences
  rw [hs, hp, hf]
  by_cases h0 : contributingCount r = 0
  · simp [h0]
  · simp [h0]

/-- Witness for C6 at a concrete reference array with one contributing rising
edge (at sample 4, after the falling edge at sample 2). -/
theorem c6_noModulation_iff_witness :
    contributingCount [0, 1, 1, 0, 0, 1] ≠ 0 ∧
    generateReferences [0, 1, 1, 0, 0, 1] =
      some (firstFallIdx [0, 1, 1, 0, 0, 1],
        periodAccum [0, 1, 1, 0, 0, 1] / (contributingCount [0, 1, 1, 0, 0, 1] : ℚ)) := by
  have hc : contributingCount [0, 1, 1, 0, 0, 1] = 1 := by
    norm_num [contributingCount, contributing, riseB, List.range, List.range.loop,
      List.filter]
  refine ⟨by rw [hc]; norm_num, (c6_noModulation_iff [0, 1, 1, 0, 0, 1]).2 ?_⟩
  rw [hc]
  norm_num

/-- The concrete reference array used against C2: a rising edge at sample 0,
a falling edge at sample 2, a contributing rising edge at sample 4. -/
def refC2 : List ℚ := [0, 1, 1, 0, 0, 1]

theorem refC2_scan : refScan refC2 = RefScanState.mk 4 1 2 2 false := by
  show refScanN refC2 (refC2.length - 1) = _
  norm_num [refScanN, refC2, List.range, List.range.loop, refStep, fallB, riseB,
    initRefState]

theorem refC2_gen : generateReferences refC2 = some (2, 4) := by
  unfold generateReferences
  rw [refC2_scan]
  norm_num

/-- C2 counterexample: the claim says the phase shift equals the index of the
first RISING edge; on `refC2` the first rising edge is at index 0 while the
source anchors `phase_shift` at the first FALLING edge, index 2. -/
theorem c2_counterexample :
    ¬ (∀ (r : List ℚ) (p : ℕ) (T : ℚ), (firstRiseIdx r).isSome = true →
        generateReferences r = some (p, T) → p = (firstRiseIdx r).getD 0) := by
  intro h
  have h0 : firstRiseIdx refC2 = some 0 := by
    norm_num [firstRiseIdx, refC2, List.range, List.range.loop, List.find?, riseB]
  have h2 := h refC2 2 4 (by rw [h0]; rfl) refC2_gen
  rw [h0] at h2
  simp at h2

/-- C2 (amended): for every ref array on which reference generation succeeds,
the phase shift `phi0` used in `inPhase[s] = sin(2*pi*(s - phi0)/T)` equals
the index of the first FALLING edge of the ref array (0 when none occurs),
not the first rising edge. -/
theorem c2_phase_anchor_amended (r : List ℚ) (p : ℕ) (T : ℚ)
    (h : generateReferences r = some (p, T)) :
    p = firstFallIdx r ∧
    ∀ s : ℕ, inPhase p T s =
      Real.sin (2 * Real.pi / (T : ℝ) * ((s : ℝ) - (p : ℝ))) := by
  refine ⟨?_, fun s => rfl⟩
  unfold generateReferences at h
  by_cases h0 : (refScan r).signals = 0
  · simp [h0] at h
  · rw [if_neg h0] at h
    have := (Option.some.injEq _ _).mp h
    have hfst : (refScan r).phaseShift = p := congrArg Prod.fst this
    rw [← hfst, refScan_phaseShift]

/-- Witness for the amended C2 at the concrete array `refC2`. -/
theorem c2_phase_anchor_amended_witness :
    generateReferences refC2 = some (2, 4) ∧ 2 = firstFallIdx refC2 :=
  ⟨refC2_gen, (c2_phase_anchor_amended refC2 2 4 refC2_gen).1⟩

/-! ### Phase-scan output-phase estimation

Source: src/src/Cpp/phase_scan/OutputPhase.cpp.  Machine doubles are modelled
by `ℝ`. -/

/-- First element of a nonempty list folded with `min`, as
`std::min_element` over a nonempty range (0 is a junk value for the empty
list, where the C++ range would be invalid). -/
def listMin : List ℝ → ℝ
  | [] => 0
  | x :: xs => xs.foldl min x

def listMax : List ℝ → ℝ
  | [] => 0
  | x :: xs => xs.foldl max x

/-- The per-detector extremum search of `OutputPhase::setSignal` (lines
18-21): `*std::min_element(signals[i].begin(), signals[i].end() - 75000)` and
the matching `max_element`.  The iterator range is valid and nonempty exactly
when the sweep is longer than 75000 samples; for shorter sweeps the range is
invalid (or empty, with the result iterator not dereferenceable), modelled as
`none`. -/
noncomputable def extremumSearch (sig : List ℝ) : Option (ℝ × ℝ) :=
  if 75000 < sig.length then
    some (listMin (sig.take (sig.length - 75000)),
          listMax (sig.take (sig.length - 75000)))
  else none

/-- C10 counterexample: the extremum search is not well-defined on a sweep of
positive length 1 — the total embedding reaches the out-of-range branch. -/
theorem c10_counterexample :
    0 < ([(1:ℝ)] : List ℝ).length ∧ extremumSearch [(1:ℝ)] = none := by
  refine ⟨by norm_num, ?_⟩
  norm_num [extremumSearch]

/-- C10 (amended): the extremum search of `setSignal` operates on a valid
nonempty range exactly when the sweep is strictly longer than the 75000
excluded trailing samples. -/
theorem c10_extremum_range_amended (sig : List ℝ) :
    (extremumSearch sig).isSome = true ↔ 75000 < sig.length := by
  unfold extremumSearch
  by_cases h : 75000 < sig.length <;> simp [h]

/-- Embeds `OutputPhase::scaleSignals`: affine rescale of each channel into
`[-1, 1]`. -/
noncomputable def scaleSample (minI maxI x : ℝ) : ℝ :=
  2 * (x - minI) / (maxI - minI) - 1

/-- Embeds `OutputPhase::calculateBands` for one detector: for the first 2000 scaled
samples and each sign pair `(i, j)`, the candidate phase
`(-1)^i * acos(dc1) + (-1)^j * acos(dc_d)`, folded into `[0, 2π)` by adding
`2π` when negative. -/
noncomputable def bandCandidates (signal : List (ℝ × ℝ)) : List ℝ :=
  (signal.take 2000).flatMap fun dc =>
    ([0, 1] : List ℕ).flatMap fun i =>
      ([0, 1] : List ℕ).map fun j =>
        if (-1 : ℝ)^i * Real.arccos dc.1 + (-1 : ℝ)^j * Real.arccos dc.2 < 0 then
          (-1 : ℝ)^i * Real.arccos dc.1 + (-1 : ℝ)^j * Real.arccos dc.2 + 2 * Real.pi
        else
          (-1 : ℝ)^i * Real.arccos dc.1 + (-1 : ℝ)^j * Real.arccos dc.2

/-- The effect of `std::remove_if` on a vector of doubles when its returned
iterator is discarded (as in `OutputPhase::setBandRange`): the elements NOT
satisfying `p` are shifted to the front in their original order; positions
from the number of kept elements onward are never written and keep their
original contents; nothing is erased, so the length is unchanged. -/
def removeIfResult (p : ℝ → Prop) [DecidablePred p] (v : List ℝ) : List ℝ :=
  v.filter (fun x => decide (¬ p x)) ++
    v.drop (v.filter (fun x => decide (¬ p x))).length

theorem removeIfResult_length (p : ℝ → Prop) [DecidablePred p] (v : List ℝ) :
    (removeIfResult p v).length = v.length := by
  unfold removeIfResult
  rw [List.length_append, List.length_drop]
  have := List.length_filter_le (fun x => decide (¬ p x)) v
  omega

theorem mem_removeIfResult (p : ℝ → Prop) [DecidablePred p] (v : List ℝ)
    (x : ℝ) (hx : x ∈ v) (hpx : ¬ p x) : x ∈ removeIfResult p v := by
  unfold removeIfResult
  exact List.mem_append_left _ (List.mem_filter.2 ⟨hx, by simpa using hpx⟩)

/-- Zero-crossing test between samples `i` and `i+1`, as in
`OutputPhase::setBandRange`: strictly opposite signs. -/
def crossAt (v : List ℝ) (i : ℕ) : Prop :=
  (v.getD i 0 > 0 ∧ v.getD (i+1) 0 < 0) ∨ (v.getD i 0 < 0 ∧ v.getD (i+1) 0 > 0)

noncomputable instance (v : List ℝ) (i : ℕ) : Decidable (crossAt v i) := by
  unfold crossAt
  infer_instance

/-- Index of the first zero crossing of a channel (0 when there is none,
matching the initialised index variable).  The source loop also reads
`_signal[i+1]` at `i = size - 1`, one past the end; the model reads 0 there,
which satisfies neither strict comparison. -/
noncomputable def firstCrossing (v : List ℝ) : ℕ :=
  ((List.range v.length).find? (fun i => decide (crossAt v i))).getD 0

/-- Embeds `OutputPhase::setBandRange` (lines 47-81) acting on the scaled signal and
the two candidate bands; returns the `swappedPhases` flag (initialised false
by the constructor) and the two band vectors after the discarded
`std::remove_if` calls. -/
noncomputable def setBandRange (signal : List (ℝ × ℝ × ℝ)) (band2 band3 : List ℝ) :
    Bool × List ℝ × List ℝ :=
  if firstCrossing (signal.map fun t => t.2.1) <
      firstCrossing (signal.map fun t => t.2.2) then
    (true, removeIfResult (fun phase => phase ≤ Real.pi) band2,
           removeIfResult (fun phase => phase > Real.pi) band3)
  else
    (false, removeIfResult (fun phase => phase > Real.pi) band2,
            removeIfResult (fun phase => phase ≤ Real.pi) band3)

/-- The concrete scaled sweep used against C1: detector 2 crosses zero first
(between samples 0 and 1), detector 3 later (between samples 1 and 2). -/
def sigC1 : List (ℝ × ℝ × ℝ) := [(0, 1, 1), (0, -1, 1), (0, -1, -1)]

theorem sigC1_swapped : (setBandRange sigC1 [4] [1]).1 = true := by
  have h2 : firstCrossing (sigC1.map fun t => t.2.1) = 0 := by
    norm_num [firstCrossing, crossAt, sigC1, List.range, List.range.loop, List.find?]
  have h3 : firstCrossing (sigC1.map fun t => t.2.2) = 1 := by
    norm_num [firstCrossing, crossAt, sigC1, List.range, List.range.loop, List.find?]
  unfold setBandRange
  rw [h2, h3]
  norm_num

/-- C1 counterexample: on `sigC1` with candidate bands `[4]` and `[1]` the
flag is set (detector 2 crosses first), yet band 2 still contains the phase
`4 > π` afterwards — `std::remove_if`'s result is discarded, and even its
predicate would retain the phases above π, the opposite of the claim. -/
theorem c1_counterexample :
    ¬ ((setBandRange sigC1 [4] [1]).1 = true →
        ∀ x ∈ (setBandRange sigC1 [4] [1]).2.1, x ≤ Real.pi) := by
  intro h
  have hpi : Real.pi < 4 := by
    have := Real.pi_lt_d2
    linarith
  have h4 : (4:ℝ) ∈ (setBandRange sigC1 [4] [1]).2.1 := by
    have hsw := sigC1_swapped
    unfold setBandRange at hsw ⊢
    by_cases hcmp : firstCrossing (sigC1.map fun t => t.2.1) <
        firstCrossing (sigC1.map fun t => t.2.2)
    · rw [if_pos hcmp]
      exact mem_removeIfResult _ _ 4 (by norm_num) (by simpa using hpi)
    · rw [if_neg hcmp] at hsw
      simp at hsw
  have := h sigC1_swapped 4 h4
  linarith

/-- C1 (amended): `setBandRange` sets the swapped flag true iff detector 2's
first zero-crossing index is strictly smaller than detector 3's; the
`remove_if` results are discarded, so both bands keep their full length, and
in the swapped case every band-2 element above π and every band-3 element at
most π remains present (the retention predicates of the source, which are the
opposite halves of the claim's), and symmetrically when not swapped. -/
theorem c1_band_range_amended (signal : List (ℝ × ℝ × ℝ)) (band2 band3 : List ℝ) :
    ((setBandRange signal band2 band3).1 = true ↔
      firstCrossing (signal.map fun t => t.2.1) <
        firstCrossing (signal.map fun t => t.2.2)) ∧
    (setBandRange signal band2 band3).2.1.length = band2.length ∧
    (setBandRange signal band2 band3).2.2.length = band3.length ∧
    ((setBandRange signal band2 band3).1 = true →
      (∀ x ∈ band2, Real.pi < x → x ∈ (setBandRange signal band2 band3).2.1) ∧
      (∀ x ∈ band3, x ≤ Real.pi → x ∈ (setBandRange signal band2 band3).2.2)) ∧
    ((setBandRange signal band2 band3).1 = false →
      (∀ x ∈ band2, x ≤ Real.pi → x ∈ (setBandRange signal band2 band3).2.1) ∧
      (∀ x ∈ band3, Real.pi < x → x ∈ (setBandRange signal band2 band3).2.2)) := by
  unfold setBandRange
  by_cases hcmp : firstCrossing (signal.map fun t => t.2.1) <
      firstCrossing (signal.map fun t => t.2.2)
  · rw [if_pos hcmp]
    refine ⟨by simpa using hcmp, removeIfResult_length _ _, removeIfResult_length _ _,
      ?_, ?_⟩
    · intro _
      constructor
      · intro x hx hgt
        exact mem_removeIfResult _ _ x hx (not_le.mpr hgt)
      · intro x hx hle
        exact mem_removeIfResult _ _ x hx (not_lt.mpr hle)
    · intro hfalse
      simp at hfalse
  · rw [if_neg hcmp]
    refine ⟨by simpa using hcmp, removeIfResult_length _ _, removeIfResult_length _ _,
      ?_, ?_⟩
    · intro htrue
      simp at htrue
    · intro _
      constructor
      · intro x hx hle
        exact mem_removeIfResult _ _ x hx (not_lt.mpr hle)
      · intro x hx hgt
        exact mem_removeIfResult _ _ x hx (not_le.mpr hgt)

/-- Witness for the amended C1 on `sigC1`: the flag is set, both bands keep
their single element. -/
theorem c1_band_range_amended_witness :
    (setBandRange sigC1 [4] [1]).2.1.length = 1 ∧
    (4:ℝ) ∈ (setBandRange sigC1 [4] [1]).2.1 ∧
    (1:ℝ) ∈ (setBandRange sigC1 [4] [1]).2.2 := by
  have h := c1_band_range_amended sigC1 [4] [1]
  have hpi4 : Real.pi < 4 := by
    have := Real.pi_lt_d2
    linarith
  have hpi1 : (1:ℝ) ≤ Real.pi := by
    have := Real.pi_gt_d2
    linarith
  have hmem := h.2.2.2.1 sigC1_swapped
  exact ⟨h.2.1, hmem.1 4 (by norm_num) hpi4, hmem.2 1 (by norm_num) hpi1⟩

/-! ### System-phase optimisation

Source: src/src_cpp/systemPhases.cpp (instantiated at `T = double`). -/

/-- Embeds `SystemPhases::getMean`: the accumulated sum divided by `data.size()`.
(For the empty vector the C++ quotient `0.0/0` is NaN; Lean's convention
`0/0 = 0` is only ever reachable through `getVariance` on an empty vector,
whose result does not depend on the mean.) -/
noncomputable def getMean (data : List ℝ) : ℝ := data.sum / data.length

/-- Embeds `SystemPhases::getVariance` (lines 46-54): the sum of the squared
deviations `(mean - element)^2`.  The source does NOT divide this sum by the
number of samples. -/
noncomputable def getVariance (data : List ℝ) : ℝ :=
  (data.map fun e => (getMean data - e)^2).sum

/-- The per-row circle values that the loop body of `varianceCircle`
computes (lines 62-66):
`(I1[i] + I2[i]*cos x + I3[i]*cos y)^2 + (I2[i]*sin x + I3[i]*sin y)^2`. -/
noncomputable def circleValues (I1 I2 I3 : List ℝ) (x y : ℝ) : List ℝ :=
  (List.range I1.length).map fun i =>
    (I1.getD i 0 + I2.getD i 0 * Real.cos x + I3.getD i 0 * Real.cos y)^2 +
    (I2.getD i 0 * Real.sin x + I3.getD i 0 * Real.sin y)^2

/-- Embeds `SystemPhases::varianceCircle` (lines 56-68): the source calls
`circlePoint.reserve(n)` and then assigns through `circlePoint[i]`.
`reserve` does not change the vector's size, so every write lands beyond the
vector's element range and the vector passed to `getVariance` still has size
0: the returned objective never depends on the computed circle values. -/
noncomputable def varianceCircle (I1 I2 I3 : List ℝ) (x y : ℝ) : ℝ :=
  getVariance []

/-- Modelled from the spec: the objective the claim states, the POPULATION
variance of the circle values (sum of squared deviations from the mean,
divided by the number of samples). -/
noncomputable def specVarianceObjective (I1 I2 I3 : List ℝ) (x y : ℝ) : ℝ :=
  ((circleValues I1 I2 I3 x y).map
      (fun e => (e - getMean (circleValues I1 I2 I3 x y))^2)).sum /
    (circleValues I1 I2 I3 x y).length

/-- C4: the coded objective is identically zero — `circlePoint` stays empty
because `reserve` is used where `resize` was needed — while the claimed
population-variance objective evaluates to 4 on the sweep
`I1 = I2 = [0, 1], I3 = [0, 0]` at `(alpha, beta) = (0, 0)`. -/
theorem c4_variance_objective_bug :
    (∀ (I1 I2 I3 : List ℝ) (x y : ℝ), varianceCircle I1 I2 I3 x y = 0) ∧
    specVarianceObjective [0, 1] [0, 1] [0, 0] 0 0 = 4 ∧
    varianceCircle [0, 1] [0, 1] [0, 0] 0 0 = 0 := by
  have hz : ∀ (I1 I2 I3 : List ℝ) (x y : ℝ), varianceCircle I1 I2 I3 x y = 0 := by
    intro I1 I2 I3 x y
    simp [varianceCircle, getVariance]
  refine ⟨hz, ?_, hz [0, 1] [0, 1] [0, 0] 0 0⟩
  have hvals : circleValues [0, 1] [0, 1] [0, 0] 0 0 = [0, 4] := by
    norm_num [circleValues, List.range, List.range.loop]
  unfold specVarianceObjective
  rw [hvals]
  norm_num [getMean]

/-! The minimizer driver `SystemPhases::getPhases` (lines 114-153) and its
run constants (lines 11-13, 128-130, 140).  The GSL iterate step is external
library code and is abstracted as a step function; `none` models a nonzero
iteration status (line-search failure), on which the loop breaks and the
current vector is returned. -/

def stepSize : ℝ := 8e-2

def tolerance : ℝ := 1e-4

def maxSteps : ℕ := 1000

def gradientTestTol : ℝ := 1e-4

noncomputable def initialGuess : ℝ × ℝ := (2 * Real.pi / 3, 4 * Real.pi / 3)

/-- The GSL gradient-descent minimizer families; the constant the source
names is `gsl_multimin_fdfminimizer_conjugate_fr` (line 130). -/
inductive GslMinimizer
  | conjugateFr
  | conjugatePr
  | vectorBfgs
  | steepestDescent

def selectedMinimizer : GslMinimizer := GslMinimizer.conjugateFr

/-- The do-while loop of `getPhases` with an iteration budget: run the
abstract GSL step; on failure return the current vector; otherwise stop when
the gradient test succeeds, else continue while iterations remain. -/
def cgLoop (step : ℝ × ℝ → Option (ℝ × ℝ)) (conv : ℝ × ℝ → Bool) :
    ℕ → ℝ × ℝ → ℝ × ℝ
  | 0, s => s
  | n+1, s =>
      match step s with
      | none => s
      | some s2 => if conv s2 then s2 else cgLoop step conv n s2

noncomputable def getPhases (step : ℝ × ℝ → Option (ℝ × ℝ))
    (conv : ℝ × ℝ → Bool) : ℝ × ℝ :=
  cgLoop step conv maxSteps initialGuess

/-- C5 counterexample: the configured initial step size constant is 8e-2 and
not the claimed 8e-4. -/
theorem c5_counterexample : stepSize = 8/100 ∧ stepSize ≠ 8/10000 := by
  constructor <;> norm_num [stepSize]

/-- C5 (amended): the minimization selects the Fletcher-Reeves
conjugate-gradient minimizer, starts from (2π/3, 4π/3), uses initial step
size 8e-2 (not 8e-4), gradient convergence tolerance 1e-4 and at most 1000
iterations; on an iteration failure the loop terminates and the current
(best-so-far) vector is returned, and a step passing the gradient test ends
the run with that step's vector. -/
theorem c5_run_configuration_amended :
    selectedMinimizer = GslMinimizer.conjugateFr ∧
    initialGuess = (2 * Real.pi / 3, 4 * Real.pi / 3) ∧
    stepSize = 8/100 ∧ gradientTestTol = 1/10000 ∧ maxSteps = 1000 ∧
    (∀ (step : ℝ × ℝ → Option (ℝ × ℝ)) (conv : ℝ × ℝ → Bool),
      step initialGuess = none → getPhases step conv = initialGuess) ∧
    (∀ (step : ℝ × ℝ → Option (ℝ × ℝ)) (conv : ℝ × ℝ → Bool)
      (s s2 : ℝ × ℝ) (n : ℕ), step s = some s2 → conv s2 = true →
        cgLoop step conv (n+1) s = s2) := by
  refine ⟨rfl, rfl, by norm_num [stepSize], by norm_num [gradientTestTol], rfl,
    ?_, ?_⟩
  · intro step conv h
    show cgLoop step conv 1000 initialGuess = initialGuess
    rw [show (1000 : ℕ) = 999 + 1 from rfl]
    simp [cgLoop, h]
  · intro step conv s s2 n h1 h2
    simp [cgLoop, h1, h2]

/-- Witness for the amended C5: a first-step iteration failure returns the
initial guess. -/
theorem c5_run_configuration_amended_witness :
    getPhases (fun _ => none) (fun _ => false) = initialGuess :=
  c5_run_configuration_amended.2.2.2.2.2.1 (fun _ => none) (fun _ => false) rfl

/-! ### Inversion

Source: src/src/Cpp/inversion/Inversion.cpp with `channels = 3`
(src/src/pti/Inversion.h, line 31). -/

/-- Four-quadrant arctangent, modelling C `atan2(y, x)` on finite inputs. -/
noncomputable def atan2 (y x : ℝ) : ℝ :=
  if 0 < x then Real.arctan (y / x)
  else if x < 0 ∧ 0 ≤ y then Real.arctan (y / x) + Real.pi
  else if x < 0 ∧ y < 0 then Real.arctan (y / x) - Real.pi
  else if x = 0 ∧ 0 < y then Real.pi / 2
  else if x = 0 ∧ y < 0 then -(Real.pi / 2)
  else 0

/-- A bounds-checked write into a nested array; `none` when an index is
outside the declared dimensions. -/
def setChecked (m : List (List ℝ)) (i j : ℕ) (v : ℝ) : Option (List (List ℝ)) :=
  if i < m.length ∧ j < (m.getD i []).length then
    some (m.set i ((m.getD i []).set j v))
  else none

/-- The zero-initialised candidate array of `calculateInterferomticPhase`
(line 75): `std::array<std::array<double, channels>, 2> x = {}` — OUTER
dimension 2, INNER dimension `channels = 3`. -/
def candidateInit : List (List ℝ) := [[0, 0, 0], [0, 0, 0]]

/-- The `+` sign x-candidate written at `x[channel][0]` (line 79). -/
noncomputable def xCandPlus (dc outPhase : ℝ) : ℝ :=
  dc * Real.cos outPhase + Real.sqrt (1 - dc^2) * Real.sin outPhase

/-- The `-` sign x-candidate written at `x[channel][1]` (line 80). -/
noncomputable def xCandMinus (dc outPhase : ℝ) : ℝ :=
  dc * Real.cos outPhase - Real.sqrt (1 - dc^2) * Real.sin outPhase

/-- The candidate-filling loop of `calculateInterferomticPhase` (lines
78-83) for the x array, every `x[channel][·]` write bounds-checked: for
`channel = 0, 1, 2` write `x[channel][0]` then `x[channel][1]` (the y array
has identical shape and indexing). -/
noncomputable def fillCandidates (dc outPhase : ℕ → ℝ) : Option (List (List ℝ)) :=
  (List.range 3).foldlM
    (fun m channel =>
      (setChecked m channel 0 (xCandPlus (dc channel) (outPhase channel))).bind
        fun m2 => setChecked m2 channel 1 (xCandMinus (dc channel) (outPhase channel)))
    candidateInit

/-- C9: the candidate-array accesses are NOT in bounds.  For every row the
write `x[2][0]` addresses outer index 2 of the 2-element outer array (the
declaration transposes the intended `[channels][2]` shape), so the total
embedding reaches the out-of-range branch on every input. -/
theorem c9_candidate_write_out_of_bounds (dc outPhase : ℕ → ℝ) :
    fillCandidates dc outPhase = none := rfl

/-- The IEEE kind of the per-row PTI output `-num / weight` written by
`calculatePTISignal` (line 133): finite when the weight is nonzero, NaN for
`0/0`, and an infinity — of either sign, collapsed into one constructor —
when the numerator is nonzero and the weight is zero. -/
inductive PtiValue
  | finite (v : ℝ)
  | infinite
  | nan

noncomputable def emitPti (num weight : ℝ) : PtiValue :=
  if weight = 0 then (if num = 0 then PtiValue.nan else PtiValue.infinite)
  else PtiValue.finite (-num / weight)

/-- One inversion row: the three AC phasors and the row's previously
computed interferometric phase `_interferometricPhase[i]`. -/
structure InvRow where
  ac : Fin 3 → ℝ × ℝ
  phase : ℝ

/-- The per-row numerator `Σ demod_d * sign_d` of `calculatePTISignal`
(lines 120-125): `R = sqrt(X² + Y²)`, `acPhase = atan2(Y, X)`,
`demod = R·cos(acPhase − systemPhase)`, `sign = +1` iff
`sin(phase − outPhase) ≥ 0`. -/
noncomputable def rowNumerator (outPhase sysPhase : Fin 3 → ℝ) (row : InvRow) : ℝ :=
  ∑ c : Fin 3,
    (Real.sqrt ((row.ac c).1^2 + (row.ac c).2^2) *
        Real.cos (atan2 (row.ac c).2 (row.ac c).1 - sysPhase c)) *
      (if 0 ≤ Real.sin (row.phase - outPhase c) then 1 else -1)

/-- The per-row weight `Σ (maxI−minI)/2 · |sin(phase − outPhase)|`
(line 126). -/
noncomputable def rowWeight (minI maxI outPhase : Fin 3 → ℝ) (row : InvRow) : ℝ :=
  ∑ c : Fin 3, (maxI c - minI c) / 2 * |Real.sin (row.phase - outPhase c)|

/-- Embeds `Inversion::calculatePTISignal` (lines 116-135): one pushed value per
row, in row order. -/
noncomputable def calculatePTISignal (minI maxI outPhase sysPhase : Fin 3 → ℝ)
    (rows : List InvRow) : List PtiValue :=
  rows.map fun row =>
    emitPti (rowNumerator outPhase sysPhase row) (rowWeight minI maxI outPhase row)

/-- Evaluation of `getD` of a `map` at an in-range index. -/
theorem getD_map_lt {α β : Type} (f : α → β) (l : List α) (i : ℕ)
    (h : i < l.length) (d : α) (d2 : β) : (l.map f).getD i d2 = f (l.getD i d) := by
  rw [List.getD_eq_getElem?_getD, List.getElem?_map, List.getElem?_eq_getElem h,
    List.getD_eq_getElem?_getD, List.getElem?_eq_getElem h]
  rfl

/-- The concrete degenerate row used against C3: unit in-phase AC, zero
quadrature, zero interferometric phase, all calibration phases zero and
`minI = maxI = 0`. -/
noncomputable def rowC3 : InvRow := ⟨fun _ => (1, 0), 0⟩

theorem rowC3_weight :
    rowWeight (fun _ => 0) (fun _ => 0) (fun _ => 0) rowC3 = 0 := by
  simp [rowWeight, rowC3]

theorem rowC3_numerator :
    rowNumerator (fun _ => 0) (fun _ => 0) rowC3 = 3 := by
  have hatan : atan2 0 1 = 0 := by
    norm_num [atan2, Real.arctan_zero]
  have hterm : Real.sqrt ((1:ℝ)^2 + 0^2) = 1 := by
    norm_num [Real.sqrt_one]
  rw [rowNumerator, Fin.sum_univ_three]
  simp only [rowC3]
  rw [hatan]
  norm_num [hterm, Real.cos_zero, Real.sin_zero]

/-- C3 counterexample: a row with zero total weight but numerator 3 is
emitted as an infinity (in IEEE, `-3/0`), not as NaN. -/
theorem c3_counterexample :
    rowWeight (fun _ => 0) (fun _ => 0) (fun _ => 0) rowC3 = 0 ∧
    calculatePTISignal (fun _ => 0) (fun _ => 0) (fun _ => 0) (fun _ => 0)
        [rowC3] = [PtiValue.infinite] ∧
    PtiValue.infinite ≠ PtiValue.nan := by
  refine ⟨rowC3_weight, ?_, by simp⟩
  unfold calculatePTISignal
  rw [List.map_singleton, rowC3_numerator, rowC3_weight]
  norm_num [emitPti]

/-- C3 (amended): on every inversion row with zero total weight the emitted
PTI value is NaN exactly when the demodulated numerator is also zero — a
nonzero numerator yields an infinity — and the per-row loop continues: the
output has one value per row and no row is marked. -/
theorem c3_degenerate_weight_amended (minI maxI outPhase sysPhase : Fin 3 → ℝ)
    (rows : List InvRow) (i : ℕ) (hi : i < rows.length)
    (hw : rowWeight minI maxI outPhase (rows.getD i ⟨fun _ => (0, 0), 0⟩) = 0) :
    (calculatePTISignal minI maxI outPhase sysPhase rows).length = rows.length ∧
    ((calculatePTISignal minI maxI outPhase sysPhase rows).getD i
        (PtiValue.finite 0) = PtiValue.nan ↔
      rowNumerator outPhase sysPhase (rows.getD i ⟨fun _ => (0, 0), 0⟩) = 0) := by
  refine ⟨by simp [calculatePTISignal], ?_⟩
  unfold calculatePTISignal
  rw [getD_map_lt _ rows i hi ⟨fun _ => (0, 0), 0⟩, hw]
  unfold emitPti
  by_cases hn : rowNumerator outPhase sysPhase (rows.getD i ⟨fun _ => (0, 0), 0⟩) = 0
  · simp [hn]
  · simp [hn]

/-- Witness for the amended C3 at the concrete degenerate row. -/
theorem c3_degenerate_weight_amended_witness :
    (calculatePTISignal (fun _ => 0) (fun _ => 0) (fun _ => 0) (fun _ => 0)
        [rowC3]).length = 1 ∧
    ((calculatePTISignal (fun _ => 0) (fun _ => 0) (fun _ => 0) (fun _ => 0)
        [rowC3]).getD 0 (PtiValue.finite 0) = PtiValue.nan ↔
      rowNumerator (fun _ => 0) (fun _ => 0) ([rowC3].getD 0 ⟨fun _ => (0, 0), 0⟩) = 0) :=
  c3_degenerate_weight_amended (fun _ => 0) (fun _ => 0) (fun _ => 0) (fun _ => 0)
    [rowC3] 0 (by norm_num) (by simpa using rowC3_weight)

/-! ### Modal extraction

Source: `calculateHistogram` (src/src/Cpp/phase_scan/OutputPhase.cpp, lines
84-106) and `OutputPhase::calculateOutputPhases` (lines 108-119). -/

/-- The bin count `static_cast<size_t>(sqrt(data.size()))`: the floor square root. -/
def numberOfBins (n : ℕ) : ℕ := Nat.sqrt n

/-- The bin boundaries `ranges[i] = min + (max - min)/numberOfBins * i` for
`i = 0 .. numberOfBins - 1` (lines 89-93).  The subsequent `std::sort` is the
identity here: the boundaries are built in ascending order. -/
noncomputable def histRanges (data : List ℝ) : List ℝ :=
  (List.range (numberOfBins data.length)).map fun i : ℕ =>
    listMin data + (listMax data - listMin data) / (numberOfBins data.length : ℝ) * (i : ℝ)

/-- The bin an element is counted into (lines 96-104): the first
`i < numberOfBins - 1` with `ranges[i] ≤ el < ranges[i+1]`; an element
satisfying no such test — in particular anything at or above the LAST
boundary — is counted nowhere. -/
noncomputable def binIndexOf (data : List ℝ) (el : ℝ) : Option ℕ :=
  (List.range (numberOfBins data.length - 1)).find? fun i =>
    decide ((histRanges data).getD i 0 ≤ el ∧ el < (histRanges data).getD (i+1) 0)

/-- The number of elements counted into bin `i`. -/
noncomputable def binCount (data : List ℝ) (i : ℕ) : ℕ :=
  (data.filter fun el => decide (binIndexOf data el = some i)).length

/-- The contents of the `std::unordered_map` bins: one entry per touched
bin, keyed by the bin's LEFT boundary.  (The map's iteration order is
implementation-defined; the model fixes ascending bin order, and the facts
proved below do not depend on that choice.) -/
noncomputable def histEntries (data : List ℝ) : List (ℝ × ℕ) :=
  (List.range (numberOfBins data.length - 1)).filterMap fun i =>
    if 0 < binCount data i then some ((histRanges data).getD i 0, binCount data i)
    else none

/-- The scan of `calculateOutputPhases` (lines 110-117): strict comparison,
`maxBucket` and `currentMax` initialised to 0. -/
def maxScan (entries : List (ℝ × ℕ)) : ℝ × ℕ :=
  entries.foldl (fun acc e => if acc.2 < e.2 then e else acc) (0, 0)

/-- Embeds `OutputPhase::calculateOutputPhases` for one band: the KEY (left
boundary) of a maximal-count bin. -/
noncomputable def calculateOutputPhases (data : List ℝ) : ℝ :=
  (maxScan (histEntries data)).1

/-- Modelled from the spec: `⌈√N⌉`. -/
def ceilSqrt (n : ℕ) : ℕ :=
  if Nat.sqrt n * Nat.sqrt n = n then Nat.sqrt n else Nat.sqrt n + 1

/-- Modelled from the spec (§4.5 step 4): the bin of an element among
`⌈√N⌉` equal-width bins over `[min, max]`, half-open except the last, which
is closed so that every band element — the maximum included — is counted in
exactly one bin. -/
noncomputable def specBinIndexOf (data : List ℝ) (el : ℝ) : Option ℕ :=
  (List.range (ceilSqrt data.length)).find? fun i : ℕ =>
    decide (listMin data +
        (listMax data - listMin data) / (ceilSqrt data.length : ℝ) * (i : ℝ) ≤ el ∧
      (el < listMin data +
          (listMax data - listMin data) / (ceilSqrt data.length : ℝ) * ((i : ℝ) + 1) ∨
        (i = ceilSqrt data.length - 1 ∧ el ≤ listMax data)))

noncomputable def specBinCount (data : List ℝ) (i : ℕ) : ℕ :=
  (data.filter fun el => decide (specBinIndexOf data el = some i)).length

/-- First index of the maximal value of a list of counts. -/
def idxOfMax (l : List ℕ) : ℕ :=
  (l.enum.foldl (fun acc e => if acc.2 < e.2 then e else acc) (0, 0)).1

/-- Modelled from the spec: the CENTRE of the maximal-count bin. -/
noncomputable def specOutputPhase (data : List ℝ) : ℝ :=
  listMin data + (listMax data - listMin data) / (ceilSqrt data.length : ℝ) *
    ((idxOfMax ((List.range (ceilSqrt data.length)).map (specBinCount data)) : ℝ)
      + 1/2)

theorem foldlMax_le_acc (entries : List (ℝ × ℕ)) (acc : ℝ × ℕ) :
    acc.2 ≤ (entries.foldl (fun a e => if a.2 < e.2 then e else a) acc).2 := by
  induction entries generalizing acc with
  | nil => simp
  | cons e rest ih =>
      simp only [List.foldl_cons]
      by_cases h : acc.2 < e.2
      · rw [if_pos h]
        exact le_trans (le_of_lt h) (ih e)
      · rw [if_neg h]
        exact ih acc

theorem foldlMax_ge_mem (entries : List (ℝ × ℕ)) (acc : ℝ × ℕ)
    (e : ℝ × ℕ) (he : e ∈ entries) :
    e.2 ≤ (entries.foldl (fun a e => if a.2 < e.2 then e else a) acc).2 := by
  induction entries generalizing acc with
  | nil => cases he
  | cons f rest ih =>
      simp only [List.foldl_cons]
      rcases List.mem_cons.mp he with rfl | hrest
      · by_cases h : acc.2 < e.2
        · rw [if_pos h]
          exact foldlMax_le_acc rest e
        · rw [if_neg h]
          exact le_trans (not_lt.mp h) (foldlMax_le_acc rest acc)
      · by_cases h : acc.2 < f.2
        · rw [if_pos h]
          exact ih f hrest
        · rw [if_neg h]
          exact ih acc hrest

theorem foldlMax_fst_mem (entries : List (ℝ × ℕ)) (acc : ℝ × ℕ) :
    (entries.foldl (fun a e => if a.2 < e.2 then e else a) acc).1 = acc.1 ∨
    (entries.foldl (fun a e => if a.2 < e.2 then e else a) acc).1 ∈
      entries.map Prod.fst := by
  induction entries generalizing acc with
  | nil => left; rfl
  | cons f rest ih =>
      simp only [List.foldl_cons, List.map_cons]
      by_cases h : acc.2 < f.2
      · rw [if_pos h]
        rcases ih f with h1 | h1
        · right
          rw [h1]
          exact List.mem_cons_self _ _
        · right
          exact List.mem_cons_of_mem _ h1
      · rw [if_neg h]
        rcases ih acc with h1 | h1
        · left
          exact h1
        · right
          exact List.mem_cons_of_mem _ h1

/-- C8 (amended): for every non-empty candidate band with `min < max`, the
histogram uses `⌊√N⌋` equal-width bins identified by their LEFT boundaries;
the band maximum is counted in NO bin (the source only tests the first
`⌊√N⌋ - 1` half-open intervals); and the returned estimate is the left
boundary of a bin whose count is maximal among all touched bins (or the
initialised 0 when no bin was touched) — not a bin centre. -/
theorem c8_modal_extraction_amended (data : List ℝ)
    (hne : data ≠ []) (hlt : listMin data < listMax data) :
    binIndexOf data (listMax data) = none ∧
    (calculateOutputPhases data = 0 ∨
      calculateOutputPhases data ∈ histRanges data) ∧
    (∀ e ∈ histEntries data, e.2 ≤ (maxScan (histEntries data)).2) := by
  have hlen : 0 < data.length := List.length_pos.mpr hne
  have hnb : 0 < numberOfBins data.length := Nat.sqrt_pos.mpr hlen
  have hrange : ∀ j, j < numberOfBins data.length →
      (histRanges data).getD j 0 = listMin data +
        (listMax data - listMin data) / (numberOfBins data.length : ℝ) * j := by
    intro j hj
    unfold histRanges
    exact getD_map_range hj 0
  refine ⟨?_, ?_, ?_⟩
  · -- the maximum is never counted
    unfold binIndexOf
    apply List.find?_eq_none.mpr
    intro i hi
    have hi' : i < numberOfBins data.length - 1 := List.mem_range.mp hi
    have hj : i + 1 < numberOfBins data.length := by omega
    rw [hrange (i+1) hj]
    simp only [decide_eq_true_eq, not_and, not_lt]
    intro _
    have hw : 0 ≤ (listMax data - listMin data) / (numberOfBins data.length : ℝ) := by
      apply div_nonneg (by linarith)
      exact_mod_cast Nat.zero_le _
    have hcast : ((i+1 : ℕ) : ℝ) ≤ (numberOfBins data.length : ℝ) := by
      exact_mod_cast Nat.le_of_lt hj
    have hmul : (listMax data - listMin data) / (numberOfBins data.length : ℝ) *
        ((i+1 : ℕ) : ℝ) ≤ (listMax data - listMin data) /
          (numberOfBins data.length : ℝ) * (numberOfBins data.length : ℝ) :=
      mul_le_mul_of_nonneg_left hcast hw
    have hnbR : (numberOfBins data.length : ℝ) ≠ 0 := by
      exact_mod_cast Nat.pos_iff_ne_zero.mp hnb
    rw [div_mul_cancel₀ _ hnbR] at hmul
    push_cast at hmul ⊢
    linarith
  · -- the result is a bin boundary or the initialised 0
    unfold calculateOutputPhases maxScan
    rcases foldlMax_fst_mem (histEntries data) (0, 0) with h | h
    · left
      exact h
    · right
      rcases List.mem_map.mp h with ⟨e, he, hfst⟩
      rw [← hfst]
      rcases List.mem_filterMap.mp he with ⟨i, hi, hsome⟩
      have hi' : i < numberOfBins data.length - 1 := List.mem_range.mp hi
      by_cases hpos : 0 < binCount data i
      · rw [if_pos hpos] at hsome
        cases Option.some.inj hsome
        show (histRanges data).getD i 0 ∈ histRanges data
        have hilen : i < (histRanges data).length := by
          unfold histRanges
          rw [List.length_map, List.length_range]
          omega
        rw [List.getD_eq_getElem?_getD, List.getElem?_eq_getElem hilen]
        exact List.getElem_mem hilen
      · rw [if_neg hpos] at hsome
        cases hsome
  · -- every touched bin's count is dominated by the returned bin's count
    intro e he
    exact foldlMax_ge_mem (histEntries data) (0, 0) e he

/-! Concrete evaluation of the histogram on the band `[0,0,0,0,1]`
(N = 5, min 0, max 1). -/

theorem bandEval_min : listMin ([0, 0, 0, 0, 1] : List ℝ) = 0 := by
  norm_num [listMin, List.foldl, min_def]

theorem bandEval_max : listMax ([0, 0, 0, 0, 1] : List ℝ) = 1 := by
  norm_num [listMax, List.foldl, max_def]

theorem sqrt_five : Nat.sqrt 5 = 2 := by
  have h1 : 2 ≤ Nat.sqrt 5 := Nat.le_sqrt.mpr (by norm_num)
  have h2 : Nat.sqrt 5 < 3 := Nat.sqrt_lt.mpr (by norm_num)
  omega

theorem bandEval_nb : numberOfBins (([0, 0, 0, 0, 1] : List ℝ)).length = 2 := by
  norm_num [numberOfBins, sqrt_five]

theorem bandEval_ranges : histRanges ([0, 0, 0, 0, 1] : List ℝ) = [0, 1/2] := by
  unfold histRanges
  rw [bandEval_nb, bandEval_min, bandEval_max]
  norm_num [List.range, List.range.loop]

theorem bandEval_bin_zero : binIndexOf ([0, 0, 0, 0, 1] : List ℝ) 0 = some 0 := by
  unfold binIndexOf
  rw [bandEval_nb, bandEval_ranges]
  norm_num [List.range, List.range.loop, List.find?]

theorem bandEval_bin_one : binIndexOf ([0, 0, 0, 0, 1] : List ℝ) 1 = none := by
  unfold binIndexOf
  rw [bandEval_nb, bandEval_ranges]
  norm_num [List.range, List.range.loop, List.find?]

theorem bandEval_count : binCount ([0, 0, 0, 0, 1] : List ℝ) 0 = 4 := by
  unfold binCount
  simp only [List.filter, bandEval_bin_zero, bandEval_bin_one]
  rfl

theorem bandEval_entries : histEntries ([0, 0, 0, 0, 1] : List ℝ) = [(0, 4)] := by
  unfold histEntries
  rw [bandEval_nb]
  norm_num [List.range, List.range.loop, List.filterMap, bandEval_count,
    bandEval_ranges]

theorem bandEval_code : calculateOutputPhases ([0, 0, 0, 0, 1] : List ℝ) = 0 := by
  unfold calculateOutputPhases
  rw [bandEval_entries]
  norm_num [maxScan, List.foldl]

theorem bandEval_ceil : ceilSqrt (([0, 0, 0, 0, 1] : List ℝ)).length = 3 := by
  norm_num [ceilSqrt, sqrt_five]

theorem bandEval_specbin_zero :
    specBinIndexOf ([0, 0, 0, 0, 1] : List ℝ) 0 = some 0 := by
  unfold specBinIndexOf
  rw [bandEval_ceil, bandEval_min, bandEval_max]
  norm_num [List.range, List.range.loop, List.find?]

theorem bandEval_specbin_one :
    specBinIndexOf ([0, 0, 0, 0, 1] : List ℝ) 1 = some 2 := by
  unfold specBinIndexOf
  rw [bandEval_ceil, bandEval_min, bandEval_max]
  norm_num [List.range, List.range.loop, List.find?]

theorem bandEval_speccounts :
    (List.range (ceilSqrt (([0, 0, 0, 0, 1] : List ℝ)).length)).map
      (specBinCount ([0, 0, 0, 0, 1] : List ℝ)) = [4, 0, 1] := by
  rw [bandEval_ceil]
  norm_num [List.range, List.range.loop, specBinCount, List.filter,
    bandEval_specbin_zero, bandEval_specbin_one]

theorem bandEval_spec : specOutputPhase ([0, 0, 0, 0, 1] : List ℝ) = 1/6 := by
  unfold specOutputPhase
  rw [bandEval_speccounts, bandEval_ceil, bandEval_min, bandEval_max]
  norm_num [idxOfMax, List.enum, List.enumFrom, List.foldl]

/-- C8 counterexample: on the band `[0,0,0,0,1]` (N = 5) the source
histograms with `⌊√5⌋ = 2` bins where the claim prescribes `⌈√5⌉ = 3`, the
band maximum 1 is counted in no bin, and the returned value is the left
boundary 0 of the fullest bin while the claimed centre of the maximal-count
bin is 1/6. -/
theorem c8_counterexample :
    calculateOutputPhases ([0, 0, 0, 0, 1] : List ℝ) = 0 ∧
    specOutputPhase ([0, 0, 0, 0, 1] : List ℝ) = 1/6 ∧
    (0 : ℝ) ≠ 1/6 ∧
    numberOfBins (([0, 0, 0, 0, 1] : List ℝ)).length = 2 ∧
    ceilSqrt (([0, 0, 0, 0, 1] : List ℝ)).length = 3 ∧
    binIndexOf ([0, 0, 0, 0, 1] : List ℝ) 1 = none :=
  ⟨bandEval_code, bandEval_spec, by norm_num, bandEval_nb, bandEval_ceil,
    bandEval_bin_one⟩

/-- Witness for the amended C8 on the band `[0,0,0,0,1]`. -/
theorem c8_modal_extraction_amended_witness :
    ([0, 0, 0, 0, 1] : List ℝ) ≠ [] ∧
    listMin ([0, 0, 0, 0, 1] : List ℝ) < listMax ([0, 0, 0, 0, 1] : List ℝ) ∧
    binIndexOf ([0, 0, 0, 0, 1] : List ℝ)
      (listMax ([0, 0, 0, 0, 1] : List ℝ)) = none ∧
    (calculateOutputPhases ([0, 0, 0, 0, 1] : List ℝ) = 0 ∨
      calculateOutputPhases ([0, 0, 0, 0, 1] : List ℝ) ∈
        histRanges ([0, 0, 0, 0, 1] : List ℝ)) := by
  have h := c8_modal_extraction_amended [0, 0, 0, 0, 1] (by simp)
    (by rw [bandEval_min, bandEval_max]; norm_num)
  exact ⟨by simp, by rw [bandEval_min, bandEval_max]; norm_num, h.1, h.2.1⟩

end MiniPTI
